import Mathlib

/-!
Verification development for the RaspberrypiPowerPole data-capture programs.

The repository contains two ADS1256 capture drivers and two decoders:
* `Capture.py` — polling driver: spins on the DRDY line, reads all three
  differential channels per cycle and appends `<fiii` records to a binary log;
* `ads1256_logger.py` — interrupt-driven driver: a falling-edge callback on
  DRDY reads one sample, appends a `<fii` record and advances the channel
  index round-robin;
* `decode_ads1256.py` / `Decode.py` — readers of the 16-byte `<fiii` records.

Python integers are embedded as `Nat`/`Int`; byte strings as `List Nat` with
each entry below 256; `float32` timestamps are represented by their 32-bit
IEEE-754 bit patterns (a `Nat` below 2^32), since `struct.pack "<f"` stores
exactly that pattern (the double→float32 rounding happens before packing and
is outside the byte-level model).  Streams of `time.time()` readings and of
bus sample bytes are embedded as functions from a call counter.
-/

namespace PowerPole

/-! ### Bit-arithmetic helpers -/

/-- Disjoint bitwise-or is addition: oring a left-shifted value with a value
below the shift amount adds them. -/
theorem shiftLeft_lor_eq_add (k : Nat) :
    ∀ a b : Nat, b < 2 ^ k → a <<< k ||| b = a * 2 ^ k + b := by
  induction k with
  | zero =>
    intro a b hb
    have hb0 : b = 0 := by omega
    subst hb0
    simp [Nat.shiftLeft_zero]
  | succ k ih =>
    intro a b hb
    have hpow : 2 ^ (k + 1) = 2 ^ k * 2 := Nat.pow_succ 2 k
    have hd : b.div2 < 2 ^ k := by
      rw [Nat.div2_val]
      omega
    have hbit : 2 * b.div2 + b.bodd.toNat = b := by
      have h := Nat.bit_decomp b
      rwa [Nat.bit_val] at h
    have h1 : a <<< (k + 1) = Nat.bit false (a <<< k) := by
      rw [Nat.shiftLeft_succ, Nat.bit_val]
      simp
    calc a <<< (k + 1) ||| b
        = Nat.bit false (a <<< k) ||| Nat.bit b.bodd b.div2 := by
          rw [h1, Nat.bit_decomp]
      _ = Nat.bit (false || b.bodd) (a <<< k ||| b.div2) := Nat.lor_bit _ _ _ _
      _ = Nat.bit b.bodd (a * 2 ^ k + b.div2) := by rw [ih _ _ hd, Bool.false_or]
      _ = a * 2 ^ (k + 1) + b := by
          rw [Nat.bit_val, hpow, ← Nat.mul_assoc]
          omega

/-- Interpretation of a `Nat` below `2 ^ 24` as a 24-bit two's-complement
signed integer (the value spoken of in the spec: "a 24-bit two's-complement
value, sign-extending bit 23"). -/
def twosComplement24 (v : Nat) : Int :=
  if v < 8388608 then (v : Int) else (v : Int) - 16777216

namespace Capture

/-! ### Polling driver, `src/Raspberry Cap/Capture.py` -/

/-- Sample assembly of `read_data` (Capture.py lines 84–87): the three bytes
returned by `spi.xfer2([0x00,0x00,0x00])` are combined as
`(raw[0] << 16) | (raw[1] << 8) | raw[2]` and `0x1000000` is subtracted when
bit 23 is set. -/
def read_data (b0 b1 b2 : Nat) : Int :=
  let value := (b0 <<< 16) ||| (b1 <<< 8) ||| b2
  if value &&& 0x800000 ≠ 0 then (value : Int) - 0x1000000 else (value : Int)

end Capture

namespace Logger

/-! ### Interrupt-driven driver, `src/Raspberry Cap/ads1256_logger.py` -/

/-- Sample assembly of `read_continuous_raw` (ads1256_logger.py lines 77–80),
identical to the polling driver's decoding. -/
def read_continuous_raw (b0 b1 b2 : Nat) : Int :=
  let value := (b0 <<< 16) ||| (b1 <<< 8) ||| b2
  if value &&& 0x800000 ≠ 0 then (value : Int) - 0x1000000 else (value : Int)

end Logger

/-- Byte assembly of the 3-byte bus response equals the big-endian weighted
sum when each byte is below 256. -/
theorem assemble24_eq (b0 b1 b2 : Nat) (h0 : b0 < 256) (h1 : b1 < 256)
    (h2 : b2 < 256) :
    (b0 <<< 16) ||| (b1 <<< 8) ||| b2 = b0 * 65536 + b1 * 256 + b2 := by
  have e1 : (b1 <<< 8) ||| b2 = b1 * 256 + b2 := by
    have := shiftLeft_lor_eq_add 8 b1 b2 (by norm_num; omega)
    simpa using this
  have hlt : b1 * 256 + b2 < 2 ^ 16 := by norm_num; omega
  have e2 : (b0 <<< 16) ||| (b1 * 256 + b2) = b0 * 65536 + (b1 * 256 + b2) := by
    have := shiftLeft_lor_eq_add 16 b0 (b1 * 256 + b2) hlt
    simpa using this
  rw [Nat.lor_assoc, e1, e2]
  omega

/-- Bit-23 test used by both drivers: for a 24-bit value, `value & 0x800000`
is nonzero exactly when the value is at least `2 ^ 23`. -/
theorem and_bit23_ne_zero_iff (v : Nat) (hv : v < 16777216) :
    v &&& 0x800000 ≠ 0 ↔ 8388608 ≤ v := by
  have h23 : (0x800000 : Nat) = 2 ^ 23 := by norm_num
  rw [h23, Nat.and_two_pow, Nat.testBit_to_div_mod]
  rcases Nat.lt_or_ge v 8388608 with h | h
  · have : v / 2 ^ 23 % 2 = 0 := by norm_num; omega
    simp [this]
    omega
  · have : v / 2 ^ 23 % 2 = 1 := by norm_num; omega
    simp [this]
    omega

/-- Generic decoding law shared by both drivers, proved once for the polling
variant's `read_data`. -/
theorem read_data_eq_twosComplement24 (b0 b1 b2 : Nat) (h0 : b0 < 256)
    (h1 : b1 < 256) (h2 : b2 < 256) :
    Capture.read_data b0 b1 b2 = twosComplement24 (b0 * 65536 + b1 * 256 + b2) := by
  have hval := assemble24_eq b0 b1 b2 h0 h1 h2
  have hlt : b0 * 65536 + b1 * 256 + b2 < 16777216 := by omega
  rw [Capture.read_data, twosComplement24]
  simp only [hval]
  rcases Nat.lt_or_ge (b0 * 65536 + b1 * 256 + b2) 8388608 with h | h
  · rw [if_neg, if_pos h]
    intro hcontra
    exact absurd ((and_bit23_ne_zero_iff _ hlt).mp hcontra) (by omega)
  · rw [if_pos ((and_bit23_ne_zero_iff _ hlt).mpr h), if_neg (by omega)]

/-- The two drivers share one decoding routine byte for byte. -/
theorem read_continuous_raw_eq_read_data :
    Logger.read_continuous_raw = Capture.read_data := rfl

/-- C1: for every 3-byte bus response, `read_data` (polling variant) and
`read_continuous_raw` (continuous variant) assemble the bytes big-endian into
a 24-bit two's-complement value, sign-extending bit 23; the raw patterns
0xFFFFFF, 0x800000 and 0x7FFFFF decode to -1, -8388608 and 8388607. -/
theorem C1_sample_sign_extension (b0 b1 b2 : Nat) (h0 : b0 < 256)
    (h1 : b1 < 256) (h2 : b2 < 256) :
    Capture.read_data b0 b1 b2 = twosComplement24 (b0 * 65536 + b1 * 256 + b2) ∧
    Logger.read_continuous_raw b0 b1 b2 =
      twosComplement24 (b0 * 65536 + b1 * 256 + b2) ∧
    Capture.read_data 0xFF 0xFF 0xFF = -1 ∧
    Capture.read_data 0x80 0x00 0x00 = -8388608 ∧
    Capture.read_data 0x7F 0xFF 0xFF = 8388607 ∧
    Logger.read_continuous_raw 0xFF 0xFF 0xFF = -1 ∧
    Logger.read_continuous_raw 0x80 0x00 0x00 = -8388608 ∧
    Logger.read_continuous_raw 0x7F 0xFF 0xFF = 8388607 := by
  refine ⟨read_data_eq_twosComplement24 b0 b1 b2 h0 h1 h2, ?_, by decide, by decide,
    by decide, by decide, by decide, by decide⟩
  rw [read_continuous_raw_eq_read_data]
  exact read_data_eq_twosComplement24 b0 b1 b2 h0 h1 h2

/-- Witness for C1 at the all-ones byte pattern. -/
theorem C1_sample_sign_extension_witness :
    Capture.read_data 255 255 255 =
      twosComplement24 (255 * 65536 + 255 * 256 + 255) ∧
    Logger.read_continuous_raw 255 255 255 =
      twosComplement24 (255 * 65536 + 255 * 256 + 255) ∧
    Capture.read_data 0xFF 0xFF 0xFF = -1 ∧
    Capture.read_data 0x80 0x00 0x00 = -8388608 ∧
    Capture.read_data 0x7F 0xFF 0xFF = 8388607 ∧
    Logger.read_continuous_raw 0xFF 0xFF 0xFF = -1 ∧
    Logger.read_continuous_raw 0x80 0x00 0x00 = -8388608 ∧
    Logger.read_continuous_raw 0x7F 0xFF 0xFF = 8388607 :=
  C1_sample_sign_extension 255 255 255 (by decide) (by decide) (by decide)

/-! ### Binary record format (`struct.pack`/`struct.unpack` with "<fiii" and
"<fii"), shared by `Capture.py`, `ads1256_logger.py`, `decode_ads1256.py` and
`Decode.py` -/

/-- Little-endian 4-byte encoding of a 32-bit word. -/
def le_bytes4 (w : Nat) : List Nat :=
  [w % 256, w / 256 % 256, w / 65536 % 256, w / 16777216 % 256]

/-- Little-endian 4-byte decoding into a 32-bit word. -/
def word4 (c0 c1 c2 c3 : Nat) : Nat :=
  c0 + 256 * c1 + 65536 * c2 + 16777216 * c3

/-- Encoding of a signed 32-bit integer as `struct.pack "<i"` does: the
two's-complement bit pattern, little-endian; out-of-range values raise
`struct.error`, embedded as `none`. -/
def pack_i32 (i : Int) : Option (List Nat) :=
  if -2147483648 ≤ i ∧ i < 2147483648 then
    some (le_bytes4 (i % 4294967296).toNat)
  else
    none

/-- Decoding of a signed 32-bit integer as `struct.unpack "<i"` does. -/
def unpack_i32 (c0 c1 c2 c3 : Nat) : Int :=
  let w := word4 c0 c1 c2 c3
  if w < 2147483648 then (w : Int) else (w : Int) - 4294967296

/-- Encoding of a float32 by its IEEE-754 bit pattern, little-endian, as
`struct.pack "<f"` stores it after rounding the Python double. -/
def pack_f32bits (w : Nat) : List Nat := le_bytes4 w

/-- Full-cycle record encoding, `struct.pack("<fiii", t, s1, s2, s3)`
(Capture.py line 187). -/
def pack_fiii (ts : Nat) (a b c : Int) : Option (List Nat) :=
  match pack_i32 a, pack_i32 b, pack_i32 c with
  | some ba, some bb, some bc => some (pack_f32bits ts ++ ba ++ bb ++ bc)
  | _, _, _ => none

/-- Per-sample record encoding, `struct.pack("<fii", t, channel_index, raw)`
(ads1256_logger.py line 152). -/
def pack_fii (ts : Nat) (a b : Int) : Option (List Nat) :=
  match pack_i32 a, pack_i32 b with
  | some ba, some bb => some (pack_f32bits ts ++ ba ++ bb)
  | _, _ => none

/-- Full-cycle record decoding, `struct.unpack("<fiii", chunk)`
(decode_ads1256.py line 47, Decode.py line 5); defined on exactly 16 bytes. -/
def unpack_fiii (bs : List Nat) : Option (Nat × Int × Int × Int) :=
  match bs with
  | [t0, t1, t2, t3, a0, a1, a2, a3, b0, b1, b2, b3, c0, c1, c2, c3] =>
    some (word4 t0 t1 t2 t3, unpack_i32 a0 a1 a2 a3,
      unpack_i32 b0 b1 b2 b3, unpack_i32 c0 c1 c2 c3)
  | _ => none

/-- Full-cycle sample record: a float32 timestamp (by bit pattern) and the
three raw channel values (Capture.py writes, the decoders read). -/
structure SampleRecord where
  ts_bits : Nat
  s1 : Int
  s2 : Int
  s3 : Int
deriving DecidableEq

/-- Record encoding of a `SampleRecord`. -/
def pack_record (r : SampleRecord) : Option (List Nat) :=
  pack_fiii r.ts_bits r.s1 r.s2 r.s3

/-- Record decoding into a `SampleRecord`. -/
def unpack_record (bs : List Nat) : Option SampleRecord :=
  (unpack_fiii bs).map (fun q => ⟨q.1, q.2.1, q.2.2.1, q.2.2.2⟩)

/-- Conditional equation for in-range `pack_i32`. -/
theorem pack_i32_eq (i : Int) (h1 : -2147483648 ≤ i) (h2 : i < 2147483648) :
    pack_i32 i = some (le_bytes4 (i % 4294967296).toNat) := by
  rw [pack_i32, if_pos ⟨h1, h2⟩]

/-- Int32 two's-complement round-trip through the byte encoding. -/
theorem unpack_pack_i32 (i : Int) (h1 : -2147483648 ≤ i)
    (h2 : i < 2147483648) :
    unpack_i32 ((i % 4294967296).toNat % 256)
      ((i % 4294967296).toNat / 256 % 256)
      ((i % 4294967296).toNat / 65536 % 256)
      ((i % 4294967296).toNat / 16777216 % 256) = i := by
  simp only [unpack_i32, word4]
  split <;> omega

/-- C2: encoding a `SampleRecord` with the little-endian record format and
decoding the bytes returns the same fields, integers exact and the float32
timestamp bit pattern exact (the pattern `struct.pack "<f"` stored is the
float32 rounding of the written timestamp, and decoding returns exactly that
float32). -/
theorem C2_record_roundtrip (r : SampleRecord) (hts : r.ts_bits < 4294967296)
    (ha1 : -2147483648 ≤ r.s1) (ha2 : r.s1 < 2147483648)
    (hb1 : -2147483648 ≤ r.s2) (hb2 : r.s2 < 2147483648)
    (hc1 : -2147483648 ≤ r.s3) (hc2 : r.s3 < 2147483648) :
    (pack_record r).bind unpack_record = some r := by
  obtain ⟨ts, a, b, c⟩ := r
  simp only at hts ha1 ha2 hb1 hb2 hc1 hc2
  rw [pack_record]
  simp only [pack_fiii, pack_i32_eq a ha1 ha2, pack_i32_eq b hb1 hb2,
    pack_i32_eq c hc1 hc2, pack_f32bits, le_bytes4, List.cons_append,
    List.nil_append, Option.some_bind, unpack_record, unpack_fiii,
    Option.map_some', Option.some.injEq, SampleRecord.mk.injEq]
  refine ⟨?_, unpack_pack_i32 a ha1 ha2, unpack_pack_i32 b hb1 hb2,
    unpack_pack_i32 c hc1 hc2⟩
  rw [word4]
  omega

/-- Witness for C2: a record with a negative sample round-trips. -/
theorem C2_record_roundtrip_witness :
    (pack_record ⟨0x3DCCCCCD, 100, -200, 8388607⟩).bind unpack_record =
      some ⟨0x3DCCCCCD, 100, -200, 8388607⟩ :=
  C2_record_roundtrip ⟨0x3DCCCCCD, 100, -200, 8388607⟩ (by decide) (by decide)
    (by decide) (by decide) (by decide) (by decide) (by decide)

/-! ### Binary capture log as written by the capture loops -/

/-- Content of the binary log file after a sequence of `bf.write` calls, each
appending one encoded record to the end of the file. -/
def log_file (writes : List (List Nat)) : List Nat :=
  writes.foldl (fun acc w => acc ++ w) []

/-- Sequential appends produce exactly the concatenation of the writes. -/
theorem foldl_append_eq_flatten :
    ∀ (ws : List (List Nat)) (acc : List Nat),
      ws.foldl (fun a w => a ++ w) acc = acc ++ ws.flatten := by
  intro ws
  induction ws with
  | nil => intro acc; simp
  | cons w rest ih =>
    intro acc
    simp [List.foldl_cons, ih, List.append_assoc]

/-- Flattening lists of one fixed length multiplies the length. -/
theorem flatten_length_const (n : Nat) :
    ∀ ws : List (List Nat), (∀ w ∈ ws, w.length = n) →
      ws.flatten.length = n * ws.length := by
  intro ws
  induction ws with
  | nil => intro _; simp
  | cons w rest ih =>
    intro h
    have hw : w.length = n := h w (List.mem_cons_self w rest)
    have hr := ih (fun x hx => h x (List.mem_cons_of_mem w hx))
    simp [List.length_append, hw, hr]
    ring

/-- Encoded full-cycle records measure exactly 16 bytes. -/
theorem pack_fiii_length_eq (ts : Nat) (a b c : Int)
    (ha1 : -2147483648 ≤ a) (ha2 : a < 2147483648)
    (hb1 : -2147483648 ≤ b) (hb2 : b < 2147483648)
    (hc1 : -2147483648 ≤ c) (hc2 : c < 2147483648) :
    (pack_fiii ts a b c).map List.length = some 16 := by
  simp only [pack_fiii, pack_i32_eq a ha1 ha2, pack_i32_eq b hb1 hb2,
    pack_i32_eq c hc1 hc2, pack_f32bits, le_bytes4, Option.map_some']
  simp

/-- Encoded per-sample records measure exactly 12 bytes. -/
theorem pack_fii_length_eq (ts : Nat) (a b : Int)
    (ha1 : -2147483648 ≤ a) (ha2 : a < 2147483648)
    (hb1 : -2147483648 ≤ b) (hb2 : b < 2147483648) :
    (pack_fii ts a b).map List.length = some 12 := by
  simp only [pack_fii, pack_i32_eq a ha1 ha2, pack_i32_eq b hb1 hb2,
    pack_f32bits, le_bytes4, Option.map_some']
  simp

/-- C4: a full-cycle record is exactly 16 bytes in the fixed little-endian
`<fiii` layout, a per-sample record exactly 12 bytes in the `<fii` layout,
and the log file produced by successive record writes is the raw
concatenation of those records with no header or footer. -/
theorem C4_record_layout (ts : Nat) (a b c : Int)
    (ha1 : -2147483648 ≤ a) (ha2 : a < 2147483648)
    (hb1 : -2147483648 ≤ b) (hb2 : b < 2147483648)
    (hc1 : -2147483648 ≤ c) (hc2 : c < 2147483648) :
    (pack_fiii ts a b c).map List.length = some 16 ∧
    (pack_fii ts a b).map List.length = some 12 ∧
    ∀ (n : Nat) (ws : List (List Nat)), (∀ w ∈ ws, w.length = n) →
      log_file ws = ws.flatten ∧ (log_file ws).length = n * ws.length := by
  refine ⟨pack_fiii_length_eq ts a b c ha1 ha2 hb1 hb2 hc1 hc2,
    pack_fii_length_eq ts a b ha1 ha2 hb1 hb2, ?_⟩
  · intro n ws h
    have he : log_file ws = ws.flatten := foldl_append_eq_flatten ws []
    exact ⟨he, by rw [he, flatten_length_const n ws h]⟩

/-- Witness for C4 at a concrete record and a concrete two-record log. -/
theorem C4_record_layout_witness :
    (pack_fiii 0x3F800000 100 (-200) 300).map List.length = some 16 ∧
    (pack_fii 0x3F800000 1 (-200)).map List.length = some 12 :=
  ⟨(C4_record_layout 0x3F800000 100 (-200) 300 (by decide) (by decide)
      (by decide) (by decide) (by decide) (by decide)).1,
    (C4_record_layout 0x3F800000 1 (-200) 300 (by decide) (by decide)
      (by decide) (by decide) (by decide) (by decide)).2.1⟩

namespace DecodeAds1256

/-! ### Full-cycle decoder, `src/Raspberry Cap/decode_ads1256.py` -/

/-- Record size constant of the decoder (decode_ads1256.py line 14). -/
def RECORD_SIZE : Nat := 16

/-- Unpacking of one full 16-byte chunk, using positional byte access; only
ever applied to chunks of length 16. -/
def unpack16 (bs : List Nat) : Nat × Int × Int × Int :=
  (word4 (bs.getD 0 0) (bs.getD 1 0) (bs.getD 2 0) (bs.getD 3 0),
   unpack_i32 (bs.getD 4 0) (bs.getD 5 0) (bs.getD 6 0) (bs.getD 7 0),
   unpack_i32 (bs.getD 8 0) (bs.getD 9 0) (bs.getD 10 0) (bs.getD 11 0),
   unpack_i32 (bs.getD 12 0) (bs.getD 13 0) (bs.getD 14 0) (bs.getD 15 0))

/-- Main decode loop (decode_ads1256.py lines 42–54): read `RECORD_SIZE`-byte
chunks until a short read, unpack each chunk, count the records; a trailing
chunk shorter than `RECORD_SIZE` ends the loop without being decoded. -/
def decode_loop (bytes : List Nat) : List (Nat × Int × Int × Int) :=
  if bytes.length < RECORD_SIZE then []
  else unpack16 (bytes.take 16) :: decode_loop (bytes.drop 16)
termination_by bytes.length
decreasing_by
  simp only [List.length_drop, RECORD_SIZE] at *
  omega

/-- Unfolding of the decode loop on a short (partial-record) input. -/
theorem decode_loop_nil_of (bs : List Nat) (h : bs.length < 16) :
    decode_loop bs = [] := by
  rw [decode_loop]
  simp [RECORD_SIZE, h]

/-- Unfolding of the decode loop on an input holding a full record. -/
theorem decode_loop_cons_of (bs : List Nat) (h : 16 ≤ bs.length) :
    decode_loop bs = unpack16 (bs.take 16) :: decode_loop (bs.drop 16) := by
  rw [decode_loop, if_neg (by simp only [RECORD_SIZE]; omega)]

/-- Record count of the decoder equals the byte count divided by 16. -/
theorem decode_loop_length (bs : List Nat) :
    (decode_loop bs).length = bs.length / 16 := by
  induction bs using decode_loop.induct with
  | case1 bs h =>
    rw [decode_loop_nil_of bs (by simpa [RECORD_SIZE] using h)]
    simp [RECORD_SIZE] at h
    simp
    omega
  | case2 bs h ih =>
    simp only [RECORD_SIZE] at h
    rw [decode_loop_cons_of bs (by omega)]
    simp only [List.length_cons, ih, List.length_drop]
    omega

/-- Truncating the input truncates the decoded record list, by bounded
induction on the input length. -/
theorem decode_loop_take_aux :
    ∀ (n : Nat) (bs : List Nat), bs.length ≤ n → ∀ T,
      decode_loop (bs.take T) = (decode_loop bs).take (T / 16) := by
  intro n
  induction n with
  | zero =>
    intro bs hb T
    have hnil : bs = [] := List.eq_nil_of_length_eq_zero (by omega)
    subst hnil
    simp [decode_loop_nil_of]
  | succ n ih =>
    intro bs hb T
    by_cases h16 : bs.length < 16
    · rw [decode_loop_nil_of bs h16, decode_loop_nil_of (bs.take T) (by simp; omega)]
      simp
    · push_neg at h16
      by_cases hT : T < 16
      · rw [decode_loop_nil_of (bs.take T) (by simp; omega)]
        have hz : T / 16 = 0 := by omega
        simp [hz]
      · push_neg at hT
        have hlen : (bs.take T).length = T ⊓ bs.length := List.length_take T bs
        have hl2 : 16 ≤ (bs.take T).length := by rw [hlen]; exact le_min hT h16
        rw [decode_loop_cons_of (bs.take T) hl2, List.take_take]
        have h1 : (16 : Nat) ⊓ T = 16 := min_eq_left hT
        rw [h1, List.drop_take, decode_loop_cons_of bs h16]
        have hq : T / 16 = (T - 16) / 16 + 1 := by omega
        rw [hq, List.take_succ_cons]
        congr 1
        exact ih (bs.drop 16) (by simp; omega) (T - 16)

end DecodeAds1256

/-- C10: the full-cycle decoder is total on arbitrary byte strings: an input
of length L decodes to exactly L / 16 records, a trailing partial record is
silently ignored, and any truncation of the log decodes to the corresponding
complete-record left part of the full decoding. -/
theorem C10_decoder_totality (bs : List Nat) (T : Nat) :
    (DecodeAds1256.decode_loop bs).length = bs.length / 16 ∧
    DecodeAds1256.decode_loop (bs.take T) =
      (DecodeAds1256.decode_loop bs).take (T / 16) :=
  ⟨DecodeAds1256.decode_loop_length bs,
    DecodeAds1256.decode_loop_take_aux bs.length bs le_rfl T⟩

namespace Logger

/-! ### Interrupt-driven sampling engine state (ads1256_logger.py
lines 134–155): shared state `running`, `channel_index`, the open log `bf`,
and the DRDY callback -/

/-- Channel set of the interrupt-driven driver (ads1256_logger.py line 34). -/
def CHANNELS : List (Nat × Nat) := [(0, 1), (2, 3), (4, 5)]

/-- Mux register byte written by `set_mux_fast` (ads1256_logger.py
lines 66–70): `(pos << 4) | neg`. -/
def set_mux_fast (p : Nat × Nat) : Nat := (p.1 <<< 4) ||| p.2

/-- Shared session state touched by the callback: the running flag, the
round-robin channel index, the records appended to the open log, and the mux
register writes issued on the bus. -/
structure LoggerState where
  running : Bool
  channel_index : Nat
  logWrites : List (Int × Nat × Int)
  muxWrites : List Nat
deriving DecidableEq

/-- Embedding of `drdy_callback` (ads1256_logger.py lines 142–155): return
immediately when the running flag is cleared; otherwise read one sample
(passed in as `raw`), take one timestamp (passed in as `t`), append the
`(t, channel_index, raw)` record, advance the channel index modulo the
channel-set length and write the mux register for the next channel. -/
def drdy_callback (t raw : Int) (s : LoggerState) : LoggerState :=
  if s.running = false then s
  else
    let newIndex := (s.channel_index + 1) % CHANNELS.length
    { s with
      logWrites := s.logWrites ++ [(t, s.channel_index, raw)],
      channel_index := newIndex,
      muxWrites := s.muxWrites ++ [set_mux_fast (CHANNELS.getD newIndex (0, 0))] }

/-- State after a sequence of callback firings, each carrying the timestamp
and raw sample it observes. -/
def run_callbacks (evs : List (Int × Int)) (s : LoggerState) : LoggerState :=
  evs.foldl (fun st e => drdy_callback e.1 e.2 st) s

/-- Session state right after `start_time = time.time()` in the main program
(ads1256_logger.py lines 168–172): running, channel index 0, empty log. -/
def init_logger : LoggerState := ⟨true, 0, [], []⟩

/-- Channel indices of the records in the order they were written. -/
def recorded_channels (s : LoggerState) : List Nat :=
  s.logWrites.map (fun w => w.2.1)

/-- Expected records of a run that starts at channel index `c`: firing `j`
logs channel `(c + j) % 3`. -/
def expected_writes (c : Nat) : List (Int × Int) → List (Int × Nat × Int)
  | [] => []
  | e :: rest => (e.1, c % 3, e.2) :: expected_writes (c + 1) rest

/-- Starting index of `expected_writes` only matters modulo 3. -/
theorem expected_writes_mod :
    ∀ (evs : List (Int × Int)) (c : Nat),
      expected_writes (c % 3) evs = expected_writes c evs := by
  intro evs
  induction evs with
  | nil => intro c; rfl
  | cons e rest ih =>
    intro c
    simp only [expected_writes]
    have h1 : c % 3 % 3 = c % 3 := by omega
    have h2 : expected_writes (c % 3 + 1) rest = expected_writes (c + 1) rest := by
      calc expected_writes (c % 3 + 1) rest
          = expected_writes ((c % 3 + 1) % 3) rest := (ih (c % 3 + 1)).symm
        _ = expected_writes ((c + 1) % 3) rest := by
            have he : (c % 3 + 1) % 3 = (c + 1) % 3 := by omega
            rw [he]
        _ = expected_writes (c + 1) rest := ih (c + 1)
    rw [h1, h2]

/-- Invariant run of the callback sequence: with the running flag set and a
reduced channel index, the callbacks append exactly the expected records and
advance the index by the number of firings, modulo 3. -/
theorem run_callbacks_spec :
    ∀ (evs : List (Int × Int)) (s : LoggerState), s.running = true →
      s.channel_index < 3 →
      (run_callbacks evs s).running = true ∧
      (run_callbacks evs s).channel_index = (s.channel_index + evs.length) % 3 ∧
      (run_callbacks evs s).logWrites =
        s.logWrites ++ expected_writes s.channel_index evs := by
  intro evs
  induction evs with
  | nil =>
    intro s hrun hlt
    refine ⟨hrun, ?_, by simp [run_callbacks, expected_writes]⟩
    simp [run_callbacks]
    omega
  | cons e rest ih =>
    intro s hrun hlt
    have hstep : run_callbacks (e :: rest) s =
        run_callbacks rest (drdy_callback e.1 e.2 s) := by
      simp [run_callbacks, List.foldl_cons]
    have hcb : drdy_callback e.1 e.2 s =
        { s with
          logWrites := s.logWrites ++ [(e.1, s.channel_index, e.2)],
          channel_index := (s.channel_index + 1) % CHANNELS.length,
          muxWrites := s.muxWrites ++
            [set_mux_fast (CHANNELS.getD ((s.channel_index + 1) % CHANNELS.length) (0, 0))] } := by
      rw [drdy_callback, if_neg (by simp [hrun])]
    have hlen : CHANNELS.length = 3 := rfl
    obtain ⟨ih1, ih2, ih3⟩ := ih (drdy_callback e.1 e.2 s)
      (by rw [hcb]; exact hrun)
      (by
        rw [hcb]
        show (s.channel_index + 1) % CHANNELS.length < 3
        rw [hlen]
        omega)
    rw [hstep]
    refine ⟨ih1, ?_, ?_⟩
    · rw [ih2, hcb]
      simp only [hlen, List.length_cons]
      omega
    · rw [ih3, hcb]
      simp only [hlen, expected_writes, List.append_assoc, List.cons_append,
        List.nil_append]
      have hmod : s.channel_index % 3 = s.channel_index := by omega
      rw [expected_writes_mod rest (s.channel_index + 1), hmod]

/-- Channel sequence of the expected records starting at index `c`. -/
theorem expected_writes_channels :
    ∀ (evs : List (Int × Int)) (c : Nat),
      (expected_writes c evs).map (fun w => w.2.1) =
        (List.range evs.length).map (fun j => (c + j) % 3) := by
  intro evs
  induction evs with
  | nil => intro c; rfl
  | cons e rest ih =>
    intro c
    simp only [expected_writes, List.map_cons, List.length_cons,
      List.range_succ_eq_map, List.map_map]
    congr 1
    rw [ih (c + 1)]
    apply List.map_congr_left
    intro j hj
    simp only [Function.comp_apply]
    omega

/-- C3: in the interrupt-driven variant, starting from channel index 0, each
firing logs the current channel index and increments it modulo the
channel-set length, so across any number of firings the recorded channel
sequence is 0,1,...,N-1,0,1,... with no skips or repeats, and after exactly
N firings the index is back to 0. -/
theorem C3_channel_cycling (evs : List (Int × Int)) :
    recorded_channels (run_callbacks evs init_logger) =
      (List.range evs.length).map (fun j => j % CHANNELS.length) ∧
    (run_callbacks evs init_logger).channel_index =
      evs.length % CHANNELS.length ∧
    (evs.length = CHANNELS.length →
      (run_callbacks evs init_logger).channel_index = 0) := by
  obtain ⟨h1, h2, h3⟩ := run_callbacks_spec evs init_logger rfl (by simp [init_logger])
  have hlen : CHANNELS.length = 3 := rfl
  refine ⟨?_, ?_, ?_⟩
  · rw [recorded_channels, h3]
    simp only [init_logger, List.nil_append, hlen]
    rw [expected_writes_channels evs 0]
    simp
  · rw [h2]
    simp [init_logger, hlen]
  · intro hN
    rw [h2]
    simp [init_logger, hlen, hN]

/-- Witness for C3 at three concrete firings. -/
theorem C3_channel_cycling_witness :
    recorded_channels
        (run_callbacks [((1 : Int), (100 : Int)), (2, -200), (3, 300)] init_logger) =
      [0, 1, 2] ∧
    (run_callbacks [((1 : Int), (100 : Int)), (2, -200), (3, 300)] init_logger).channel_index = 0 := by
  obtain ⟨h1, h2, h3⟩ :=
    C3_channel_cycling [((1 : Int), (100 : Int)), (2, -200), (3, 300)]
  exact ⟨h1.trans (by decide), h3 (by decide)⟩

/-- Timestamp components of the expected records are exactly the event
timestamps, in firing order. -/
theorem expected_writes_ts :
    ∀ (evs : List (Int × Int)) (c : Nat),
      (expected_writes c evs).map (fun w => w.1) = evs.map (fun e => e.1) := by
  intro evs
  induction evs with
  | nil => intro c; rfl
  | cons e rest ih =>
    intro c
    simp only [expected_writes, List.map_cons, List.cons.injEq]
    exact ⟨trivial, ih (c + 1)⟩

/-- Shape of any expected record: its channel index is below 3 and its
timestamp and raw value come from one of the events. -/
theorem expected_writes_mem_shape :
    ∀ (evs : List (Int × Int)) (c : Nat) (w : Int × Nat × Int),
      w ∈ expected_writes c evs →
      w.2.1 < 3 ∧ ∃ e ∈ evs, w.1 = e.1 ∧ w.2.2 = e.2 := by
  intro evs
  induction evs with
  | nil => intro c w hw; simp [expected_writes] at hw
  | cons e rest ih =>
    intro c w hw
    rw [expected_writes, List.mem_cons] at hw
    rcases hw with hw | hw
    · subst hw
      refine ⟨?_, e, List.mem_cons_self e rest, rfl, rfl⟩
      show c % 3 < 3
      omega
    · obtain ⟨h3, e', he', h1, h2⟩ := ih (c + 1) w hw
      exact ⟨h3, e', List.mem_cons_of_mem e he', h1, h2⟩

/-- Interrupt-driven session of `k` firings under normal operation (running
flag set throughout): `time.time()` call 0 is `start_time` (ads1256_logger.py
line 172), the locked body of the j-th callback performs the (j+1)-st call
immediately before its `bf.write` (lines 149-152), and the lock serializes
the bodies, so firing j logs timestamp `clock (j+1) - clock 0` together with
the raw sample `raws j` it read. -/
def run_session (clock : Nat → Int) (raws : Nat → Int) (k : Nat)
    (s : LoggerState) : LoggerState :=
  run_callbacks
    ((List.range k).map (fun j => (clock (j + 1) - clock 0, raws j))) s

end Logger

/-! ### Interleaving of the callback with the session-stop path
(ads1256_logger.py lines 142–155 and 180–185).  The callback checks the
running flag BEFORE acquiring the lock, and the stop path
(`running = False; GPIO.remove_event_detect(...); bf.close()`) acquires no
lock at all; both facts are modelled exactly. -/

/-- Joint state of the main thread and one pending callback invocation.
`cbPC` is the callback's program counter: 0 before the running-flag check,
1 after a passed check (body still pending), 2 done.  `stopPC` is the main
thread's position in the stop path: 0 before `running = False`, 1 after it,
2 after `remove_event_detect`, 3 after `bf.close()`. -/
structure ConcState where
  running : Bool
  lockHeld : Bool
  logClosed : Bool
  cbPC : Nat
  stopPC : Nat
  logWriteCount : Nat
  writesAfterClose : Nat
deriving DecidableEq

/-- One scheduling step of the callback thread: the unlocked running-flag
check first, then the locked body (bus read, log write, index increment, mux
write) as one critical section; the body blocks while the lock is held. -/
def cb_step (s : ConcState) : ConcState :=
  if s.cbPC = 0 then
    if s.running then { s with cbPC := 1 } else { s with cbPC := 2 }
  else if s.cbPC = 1 then
    if s.lockHeld then s
    else
      { s with
        logWriteCount := s.logWriteCount + 1,
        writesAfterClose :=
          s.writesAfterClose + (if s.logClosed then 1 else 0),
        cbPC := 2 }
  else s

/-- One scheduling step of the main thread's stop path, which takes no lock:
clear the running flag, deregister the interrupt, close the log. -/
def stop_step (s : ConcState) : ConcState :=
  if s.stopPC = 0 then { s with running := false, stopPC := 1 }
  else if s.stopPC = 1 then { s with stopPC := 2 }
  else if s.stopPC = 2 then { s with logClosed := true, stopPC := 3 }
  else s

/-- Execution of an interleaving: `true` schedules the callback thread,
`false` the main thread. -/
def run_sched (sched : List Bool) (s : ConcState) : ConcState :=
  sched.foldl (fun st c => if c then cb_step st else stop_step st) s

/-- State when the capture duration elapses with one callback invocation
pending: session running, lock free, log open. -/
def init_conc : ConcState := ⟨true, false, false, 0, 0, 0, 0⟩

/-- C6 counterexample: the running-flag check is performed outside the lock
and the session-stop path acquires no lock, so the interleaving in which the
callback passes its check, then the main thread clears the flag, deregisters
and closes the log, and then the callback body runs, performs a log write
after session stop — the claim that the guard and body are protected by a
lock shared with the stop path, preventing any write after stop, is false. -/
theorem C6_counterexample :
    (run_sched [true, false, false, false, true] init_conc).writesAfterClose = 1 ∧
    (run_sched [true, false, false, false, true] init_conc).logClosed = true ∧
    (run_sched [true, false, false, false, true] init_conc).stopPC = 3 := by
  decide

/-- Preservation of the stopped-before-guard invariant by a callback step. -/
theorem cb_step_preserve (st : ConcState) (hrun : st.running = false)
    (hpc : st.cbPC ≠ 1) (h0 : st.logWriteCount = 0) :
    (cb_step st).running = false ∧ (cb_step st).cbPC ≠ 1 ∧
    (cb_step st).logWriteCount = 0 := by
  simp only [cb_step]
  by_cases h : st.cbPC = 0
  · simp [h, hrun, h0]
  · simp [h, hpc, hrun, h0]

/-- Preservation of the stopped-before-guard invariant by a stop-path step. -/
theorem stop_step_preserve (st : ConcState) (hrun : st.running = false)
    (hpc : st.cbPC ≠ 1) (h0 : st.logWriteCount = 0) :
    (stop_step st).running = false ∧ (stop_step st).cbPC ≠ 1 ∧
    (stop_step st).logWriteCount = 0 := by
  simp only [stop_step]
  split_ifs <;> simp [hrun, hpc, h0]

/-- Execution from a state where the flag is already cleared and the guard
has not yet run performs no log write. -/
theorem run_sched_no_write :
    ∀ (l : List Bool) (st : ConcState), st.running = false →
      st.cbPC ≠ 1 → st.logWriteCount = 0 →
      (run_sched l st).logWriteCount = 0 := by
  intro l
  induction l with
  | nil => intro st _ _ h0; exact h0
  | cons c rest ih =>
    intro st hrun hpc h0
    cases c with
    | true =>
      have hstep : run_sched (true :: rest) st = run_sched rest (cb_step st) := by
        simp [run_sched, List.foldl_cons]
      rw [hstep]
      obtain ⟨p1, p2, p3⟩ := cb_step_preserve st hrun hpc h0
      exact ih _ p1 p2 p3
    | false =>
      have hstep : run_sched (false :: rest) st =
          run_sched rest (stop_step st) := by
        simp [run_sched, List.foldl_cons]
      rw [hstep]
      obtain ⟨p1, p2, p3⟩ := stop_step_preserve st hrun hpc h0
      exact ih _ p1 p2 p3

/-- C6 amended: a callback invocation whose running-flag check observes the
cleared flag is a complete no-op — no bus read, no log write, no
channel-index change, no mux write (the check is the first thing the
callback does); and in the interleaved model any execution that starts after
the running flag is cleared performs no log write at all.  The guard is,
however, NOT protected by the lock, and the stop path takes no lock, so a
callback that passed its check before the stop can still write after the log
is closed. -/
theorem C6_amended (t raw : Int) (s : Logger.LoggerState)
    (hs : s.running = false) (sched : List Bool) :
    Logger.drdy_callback t raw s = s ∧
    (run_sched sched { init_conc with running := false }).logWriteCount = 0 := by
  constructor
  · rw [Logger.drdy_callback, if_pos hs]
  · exact run_sched_no_write sched { init_conc with running := false } rfl
      (by decide) rfl

/-- Witness for the amended C6 at a concrete stopped state and schedule. -/
theorem C6_amended_witness :
    Logger.drdy_callback 7 42 ⟨false, 1, [], []⟩ = ⟨false, 1, [], []⟩ ∧
    (run_sched [true, true, false, false, false, true]
      { init_conc with running := false }).logWriteCount = 0 :=
  C6_amended 7 42 ⟨false, 1, [], []⟩ rfl [true, true, false, false, false, true]

/-! ### Timed interleaving of the interrupt-driven engine around session end.
Each scheduled step carries the elapsed time at which it executes; the
callback body records that time as the written record's timestamp, since the
body computes `t = time.time() - start_time` immediately before `bf.write`
(ads1256_logger.py lines 150-152).  The main context sleeps for the
configured duration `D` (line 181), so its three stop steps can only occur
at elapsed times at or above `D`. -/

/-- Timed joint state: as `ConcState`, but log writes record the elapsed
time at which they were performed. -/
structure TConcState where
  running : Bool
  lockHeld : Bool
  logClosed : Bool
  cbPC : Nat
  stopPC : Nat
  writes : List Int
  writesAfterClose : Nat
deriving DecidableEq

/-- Timed callback step at elapsed time `now`: unlocked running-flag check
first, then the locked body, whose write carries timestamp `now`. -/
def t_cb_step (now : Int) (s : TConcState) : TConcState :=
  if s.cbPC = 0 then
    if s.running then { s with cbPC := 1 } else { s with cbPC := 2 }
  else if s.cbPC = 1 then
    if s.lockHeld then s
    else
      { s with
        writes := s.writes ++ [now],
        writesAfterClose :=
          s.writesAfterClose + (if s.logClosed then 1 else 0),
        cbPC := 2 }
  else s

/-- Timed stop-path step (lockless, as in the source): clear the running
flag, deregister the interrupt, close the log. -/
def t_stop_step (s : TConcState) : TConcState :=
  if s.stopPC = 0 then { s with running := false, stopPC := 1 }
  else if s.stopPC = 1 then { s with stopPC := 2 }
  else if s.stopPC = 2 then { s with logClosed := true, stopPC := 3 }
  else s

/-- Execution of a timed interleaving: each entry schedules the callback
thread (`true`) or the main thread (`false`) at the given elapsed time. -/
def run_tsched (sched : List (Bool × Int)) (s : TConcState) : TConcState :=
  sched.foldl (fun st c => if c.1 then t_cb_step c.2 st else t_stop_step st) s

/-- Timed state with the session running, the lock free, the log open and
one callback invocation pending. -/
def t_init : TConcState := ⟨true, false, false, 0, 0, [], 0⟩

/-- Preservation of the stopped-before-guard invariant by a timed callback
step. -/
theorem t_cb_step_preserve (now : Int) (st : TConcState)
    (hrun : st.running = false) (hpc : st.cbPC ≠ 1) (h0 : st.writes = []) :
    (t_cb_step now st).running = false ∧ (t_cb_step now st).cbPC ≠ 1 ∧
    (t_cb_step now st).writes = [] := by
  simp only [t_cb_step]
  by_cases h : st.cbPC = 0
  · simp [h, hrun, h0]
  · simp [h, hpc, hrun, h0]

/-- Preservation of the stopped-before-guard invariant by a timed stop-path
step. -/
theorem t_stop_step_preserve (st : TConcState) (hrun : st.running = false)
    (hpc : st.cbPC ≠ 1) (h0 : st.writes = []) :
    (t_stop_step st).running = false ∧ (t_stop_step st).cbPC ≠ 1 ∧
    (t_stop_step st).writes = [] := by
  simp only [t_stop_step]
  split_ifs <;> simp [hrun, hpc, h0]

/-- Timed execution from a state where the flag is already cleared and the
guard has not yet run performs no log write at any time. -/
theorem run_tsched_no_write :
    ∀ (l : List (Bool × Int)) (st : TConcState), st.running = false →
      st.cbPC ≠ 1 → st.writes = [] →
      (run_tsched l st).writes = [] := by
  intro l
  induction l with
  | nil => intro st _ _ h0; exact h0
  | cons c rest ih =>
    intro st hrun hpc h0
    obtain ⟨b, now⟩ := c
    cases b with
    | true =>
      have hstep : run_tsched ((true, now) :: rest) st =
          run_tsched rest (t_cb_step now st) := by
        simp [run_tsched, List.foldl_cons]
      rw [hstep]
      obtain ⟨p1, p2, p3⟩ := t_cb_step_preserve now st hrun hpc h0
      exact ih _ p1 p2 p3
    | false =>
      have hstep : run_tsched ((false, now) :: rest) st =
          run_tsched rest (t_stop_step st) := by
        simp [run_tsched, List.foldl_cons]
      rw [hstep]
      obtain ⟨p1, p2, p3⟩ := t_stop_step_preserve st hrun hpc h0
      exact ih _ p1 p2 p3

/-- C7 counterexample: in the interrupt-driven engine, a callback that
passes its running-flag check just before the capture duration elapses may
execute its locked body afterwards.  With duration D = 5, the schedule
guard-check at elapsed 4, body at elapsed 5, then the main thread's stop
path at elapsed 5 is a legal execution of the source (the main context
sleeps D = 5, so its steps come at elapsed at least 5, and the lock is
honored throughout), and it writes a record at elapsed 5, which is not below
D — refuting, for the interrupt-driven engine, that records are written only
while elapsed time is less than D. -/
theorem C7_counterexample :
    (run_tsched [(true, 4), (true, 5), (false, 5), (false, 5), (false, 5)]
      t_init).writes = [5] ∧
    ¬ ((5 : Int) < 5) ∧
    (run_tsched [(true, 4), (true, 5), (false, 5), (false, 5), (false, 5)]
      t_init).running = false ∧
    (run_tsched [(true, 4), (true, 5), (false, 5), (false, 5), (false, 5)]
      t_init).logClosed = true := by
  decide

namespace Capture

/-- Embedding of `wait_drdy` (Capture.py lines 60–62): spin while the DRDY
line reads high (truthy), with an empty loop body.  The Python loop is
unbounded; the embedding observes it through a poll budget `fuel`: `some k`
means the loop exited after reading the line low at poll `k`, `none` means
the loop was still spinning after `fuel` polls. -/
def wait_drdy (line : Nat → Bool) : Nat → Nat → Option Nat
  | 0, _ => none
  | fuel + 1, k => if line k then wait_drdy line fuel (k + 1) else some k

/-- Termination of the source spin on a given line trace: some poll budget
suffices for the loop to exit.  The claim asserts the wait returns (with a
`HardwareTimeout` error) on a never-ready line instead of spinning forever,
which entails this proposition for the all-high trace. -/
def wait_drdy_terminates (line : Nat → Bool) : Prop :=
  ∃ fuel, (wait_drdy line fuel 0).isSome

/-- Outcome type of the bounded wait described by the spec. -/
inductive WaitOutcome where
  | ready : Nat → WaitOutcome
  | hardwareTimeout : WaitOutcome
deriving DecidableEq

/-- Modelled from the spec: a data-ready wait with a caller-supplied maximum
spin count `M`, returning `hardwareTimeout` once the bound is exceeded; this
bound is absent from the source (`wait_drdy` takes no bound), the spec calls
it a deliberate hardening beyond the observed source behavior. -/
def wait_drdy_spec (line : Nat → Bool) : Nat → Nat → WaitOutcome
  | 0, _ => .hardwareTimeout
  | fuel + 1, k => if line k then wait_drdy_spec line fuel (k + 1) else .ready k

/-- Spinning on an always-high line never returns, whatever the budget. -/
theorem wait_drdy_always_high :
    ∀ (fuel k : Nat), wait_drdy (fun _ => true) fuel k = none := by
  intro fuel
  induction fuel with
  | zero => intro k; rfl
  | succ fuel ih =>
    intro k
    simp only [wait_drdy, if_pos]
    exact ih (k + 1)

/-- C5 counterexample: the source polling wait has no spin bound and no
HardwareTimeout path — on a ready line that never becomes active it spins
forever rather than returning an error, refuting the claim on the all-high
line trace. -/
theorem C5_counterexample : ¬ wait_drdy_terminates (fun _ => true) := by
  rintro ⟨fuel, h⟩
  rw [wait_drdy_always_high fuel 0] at h
  exact Bool.noConfusion h

/-- First low poll wins: if the line reads high at every poll before `n` and
low at poll `n`, the spin returns `some n` under any sufficient budget. -/
theorem wait_drdy_first_low (line : Nat → Bool) :
    ∀ (fuel j n : Nat), j ≤ n → (∀ k, j ≤ k → k < n → line k = true) →
      line n = false → n - j < fuel → wait_drdy line fuel j = some n := by
  intro fuel
  induction fuel with
  | zero => intro j n _ _ _ hf; omega
  | succ fuel ih =>
    intro j n hj hhigh hlow hf
    rcases Nat.eq_or_lt_of_le hj with heq | hlt
    · subst heq
      simp only [wait_drdy, hlow]
      simp
    · have hline : line j = true := hhigh j le_rfl hlt
      simp only [wait_drdy, hline, if_pos]
      exact ih (j + 1) n (by omega) (fun k hk1 hk2 => hhigh k (by omega) hk2)
        hlow (by omega)

/-- C5 amended: the polling data-ready wait spins reading the ready line and
returns at the first poll that reads the active (low) level; it accepts no
caller-supplied spin bound and has no HardwareTimeout path, so on a line
that never becomes active it spins forever — the bounded
`hardwareTimeout`-returning wait exists only in the spec-modelled variant. -/
theorem C5_amended (line : Nat → Bool) (n : Nat)
    (hhigh : ∀ k, k < n → line k = true) (hlow : line n = false) :
    (∀ fuel, n < fuel → wait_drdy line fuel 0 = some n) ∧
    (∀ fuel k, wait_drdy (fun _ => true) fuel k = none) ∧
    wait_drdy_spec (fun _ => true) 5 0 = .hardwareTimeout := by
  refine ⟨?_, wait_drdy_always_high, rfl⟩
  intro fuel hf
  exact wait_drdy_first_low line fuel 0 n (by omega)
    (fun k _ hk => hhigh k hk) hlow (by omega)

/-- Witness for the amended C5 on a line that goes low at poll 2. -/
theorem C5_amended_witness :
    wait_drdy (fun k => decide (k < 2)) 7 0 = some 2 ∧
    wait_drdy_spec (fun _ => true) 5 0 = .hardwareTimeout := by
  have h := C5_amended (fun k => decide (k < 2)) 2 (by decide) (by decide)
  exact ⟨h.1 7 (by omega), h.2.2⟩

/-! ### Main capture loop of Capture.py (lines 181–187): while the elapsed
time is below `CAPTURE_TIME`, take a fresh timestamp, read all channels and
append one record.  `clock n` is the value of the n-th `time.time()` call
(call 0 is `start_time`, the loop check at iteration i is call `2*i+1`, the
record timestamp is call `2*i+2`); `samples i` are the three raw values of
`read_all_channels()` in iteration i; `D` is the configured duration. -/

/-- Full-cycle record as assembled in the loop body: the elapsed timestamp
and the three raw channel values. -/
structure CycleRecord where
  t : Int
  s1 : Int
  s2 : Int
  s3 : Int
deriving DecidableEq

/-- Loop embedding: `i` is the iteration counter, `k` the index of the next
`time.time()` call; the Bool records whether the loop exited through its
condition within the given budget. -/
def captureLoop (clock : Nat → Int) (samples : Nat → Int × Int × Int)
    (D : Int) : Nat → Nat → Nat → List CycleRecord × Bool
  | 0, _, _ => ([], false)
  | fuel + 1, i, k =>
    if clock k - clock 0 < D then
      let t := clock (k + 1) - clock 0
      let s := samples i
      let rest := captureLoop clock samples D fuel (i + 1) (k + 2)
      (⟨t, s.1, s.2.1, s.2.2⟩ :: rest.1, rest.2)
    else ([], true)

/-- Whole-session run of the capture loop, starting right after
`start_time = time.time()`. -/
def captureRun (clock : Nat → Int) (samples : Nat → Int × Int × Int)
    (D : Int) (fuel : Nat) : List CycleRecord × Bool :=
  captureLoop clock samples D fuel 0 1

/-- Guard accounting of a finished loop: every produced record was guarded
by a loop check that read elapsed time below `D`, and the loop exited at the
first check that read elapsed time at least `D`. -/
theorem captureLoop_stop (clock : Nat → Int) (samples : Nat → Int × Int × Int)
    (D : Int) :
    ∀ (fuel i : Nat) (rs : List CycleRecord),
      captureLoop clock samples D fuel i (2 * i + 1) = (rs, true) →
      (∀ j, j < rs.length → clock (2 * (i + j) + 1) - clock 0 < D) ∧
      D ≤ clock (2 * (i + rs.length) + 1) - clock 0 := by
  intro fuel
  induction fuel with
  | zero =>
    intro i rs h
    simp only [captureLoop, Prod.mk.injEq] at h
    exact absurd h.2 (by simp)
  | succ fuel ih =>
    intro i rs h
    simp only [captureLoop] at h
    by_cases hg : clock (2 * i + 1) - clock 0 < D
    · rw [if_pos hg] at h
      simp only [Prod.mk.injEq] at h
      obtain ⟨hrs, hst⟩ := h
      have hk : 2 * i + 1 + 2 = 2 * (i + 1) + 1 := by omega
      rw [hk] at hrs hst
      obtain ⟨ih1, ih2⟩ := ih (i + 1)
        (captureLoop clock samples D fuel (i + 1) (2 * (i + 1) + 1)).1
        (by rw [← hst])
      subst hrs
      constructor
      · intro j hj
        cases j with
        | zero => simpa using hg
        | succ j =>
          have := ih1 j (by simpa using hj)
          have hidx : 2 * (i + 1 + j) + 1 = 2 * (i + (j + 1)) + 1 := by omega
          rwa [hidx] at this
      · have hidx : 2 * (i + 1 +
            (captureLoop clock samples D fuel (i + 1) (2 * (i + 1) + 1)).1.length) + 1 =
            2 * (i + (List.length
              (captureLoop clock samples D fuel (i + 1) (2 * (i + 1) + 1)).1 + 1)) + 1 := by
          omega
        rw [hidx] at ih2
        simpa using ih2
    · rw [if_neg hg] at h
      simp only [Prod.mk.injEq] at h
      obtain ⟨hrs, _⟩ := h
      subst hrs
      simp only [List.length_nil, Nat.add_zero]
      exact ⟨by intro j hj; omega, by omega⟩

/-- Closed form of the records the loop produces from iteration `i` on:
`m` further records, the one for iteration `i'` carrying the timestamp of
clock call `2*i'+2` and the sample triple of iteration `i'`. -/
def expected_records (clock : Nat → Int) (samples : Nat → Int × Int × Int) :
    Nat → Nat → List CycleRecord
  | _, 0 => []
  | i, m + 1 =>
    ⟨clock (2 * i + 2) - clock 0, (samples i).1, (samples i).2.1,
      (samples i).2.2⟩ :: expected_records clock samples (i + 1) m

/-- The capture loop produces exactly the expected records. -/
theorem captureLoop_records_eq (clock : Nat → Int)
    (samples : Nat → Int × Int × Int) (D : Int) :
    ∀ (fuel i : Nat),
      (captureLoop clock samples D fuel i (2 * i + 1)).1 =
        expected_records clock samples i
          (captureLoop clock samples D fuel i (2 * i + 1)).1.length := by
  intro fuel
  induction fuel with
  | zero =>
    intro i
    simp [captureLoop, expected_records]
  | succ fuel ih =>
    intro i
    by_cases hg : clock (2 * i + 1) - clock 0 < D
    · have hk : 2 * i + 1 + 2 = 2 * (i + 1) + 1 := by omega
      have hunfold : captureLoop clock samples D (fuel + 1) i (2 * i + 1) =
          (⟨clock (2 * i + 1 + 1) - clock 0, (samples i).1, (samples i).2.1,
            (samples i).2.2⟩ ::
            (captureLoop clock samples D fuel (i + 1) (2 * (i + 1) + 1)).1,
            (captureLoop clock samples D fuel (i + 1) (2 * (i + 1) + 1)).2) := by
        simp only [captureLoop, if_pos hg, hk]
      rw [hunfold]
      simp only [List.length_cons, expected_records, List.cons.injEq]
      exact ⟨trivial, ih (i + 1)⟩
    · have hunfold : captureLoop clock samples D (fuel + 1) i (2 * i + 1) =
          ([], true) := by
        simp only [captureLoop, if_neg hg]
      rw [hunfold]
      simp [expected_records]

/-- Whole-session form of the record characterization. -/
theorem captureRun_records_eq (clock : Nat → Int)
    (samples : Nat → Int × Int × Int) (D : Int) (fuel : Nat) :
    (captureRun clock samples D fuel).1 =
      expected_records clock samples 0
        (captureRun clock samples D fuel).1.length :=
  captureLoop_records_eq clock samples D fuel 0

/-- Shape of any record in the expected list: it belongs to some iteration
at or after the starting one. -/
theorem expected_records_mem (clock : Nat → Int)
    (samples : Nat → Int × Int × Int) :
    ∀ (m i : Nat) (r : CycleRecord),
      r ∈ expected_records clock samples i m →
      ∃ i', i ≤ i' ∧ r = ⟨clock (2 * i' + 2) - clock 0, (samples i').1,
        (samples i').2.1, (samples i').2.2⟩ := by
  intro m
  induction m with
  | zero => intro i r hr; simp [expected_records] at hr
  | succ m ih =>
    intro i r hr
    rw [expected_records, List.mem_cons] at hr
    rcases hr with hr | hr
    · exact ⟨i, le_rfl, hr⟩
    · obtain ⟨i', hi', heq⟩ := ih (i + 1) r hr
      exact ⟨i', by omega, heq⟩

/-- Timestamps of the expected records are non-decreasing for a monotone
clock. -/
theorem expected_records_pairwise (clock : Nat → Int)
    (samples : Nat → Int × Int × Int)
    (hmono : ∀ a b : Nat, a ≤ b → clock a ≤ clock b) :
    ∀ (m i : Nat),
      ((expected_records clock samples i m).map (fun r => r.t)).Pairwise
        (· ≤ ·) := by
  intro m
  induction m with
  | zero => intro i; simp [expected_records]
  | succ m ih =>
    intro i
    rw [expected_records, List.map_cons, List.pairwise_cons]
    refine ⟨?_, ih (i + 1)⟩
    intro x hx
    obtain ⟨r, hr, hxr⟩ := List.mem_map.mp hx
    obtain ⟨i', hi', heq⟩ := expected_records_mem clock samples m (i + 1) r hr
    subst hxr
    subst heq
    exact sub_le_sub_right (hmono (2 * i + 2) (2 * i' + 2) (by omega)) (clock 0)

/-- C7 amended: for the polling engine the claim holds as stated — every
record write was guarded by a loop check observing elapsed time below `D`,
and the loop transitions to its stopped state at the first check at or above
`D`.  For the interrupt-driven engine, the main context sleeps for `D` and
then clears the running flag, deregisters the interrupt and closes the log
(the transition to Stopped, necessarily at elapsed at or above `D` since the
sleep blocks that long), and every callback whose running-flag check
observes the cleared flag writes nothing; but a callback that passed its
check before the flag was cleared may still perform its write at or after
`D`, so the interrupt engine's records are not confined to elapsed time
below `D` (see the counterexample). -/
theorem C7_session_duration (clock : Nat → Int)
    (samples : Nat → Int × Int × Int) (D : Int) (fuel : Nat)
    (rs : List CycleRecord)
    (hrun : captureRun clock samples D fuel = (rs, true))
    (sched : List (Bool × Int)) :
    ((∀ j, j < rs.length → clock (2 * j + 1) - clock 0 < D) ∧
      D ≤ clock (2 * rs.length + 1) - clock 0) ∧
    ((t_stop_step (t_stop_step (t_stop_step t_init))).running = false ∧
      (t_stop_step (t_stop_step (t_stop_step t_init))).logClosed = true) ∧
    (run_tsched sched { t_init with running := false }).writes = [] := by
  refine ⟨?_, by decide,
    run_tsched_no_write sched { t_init with running := false } rfl (by decide)
      rfl⟩
  obtain ⟨h1, h2⟩ := captureLoop_stop clock samples D fuel 0 rs hrun
  constructor
  · intro j hj
    simpa using h1 j hj
  · simpa using h2

/-- Witness for the amended C7 with the identity clock, duration 4 and
budget 10, and a two-step post-clear schedule. -/
theorem C7_session_duration_witness :
    captureRun (fun n => (n : Int)) (fun _ => ((1 : Int), (2 : Int), (3 : Int)))
        4 10 = ([⟨2, 1, 2, 3⟩, ⟨4, 1, 2, 3⟩], true) ∧
    (4 : Int) ≤ (fun n => (n : Int)) (2 * 2 + 1) - (fun n => (n : Int)) 0 ∧
    (run_tsched [(true, 9), (true, 9)]
      { t_init with running := false }).writes = [] := by
  have hrun : captureRun (fun n => (n : Int))
      (fun _ => ((1 : Int), (2 : Int), (3 : Int))) 4 10 =
      ([⟨2, 1, 2, 3⟩, ⟨4, 1, 2, 3⟩], true) := by decide
  have h := C7_session_duration (fun n => (n : Int))
    (fun _ => ((1 : Int), (2 : Int), (3 : Int))) 4 10 _ hrun
    [(true, 9), (true, 9)]
  exact ⟨hrun, h.1.2, h.2.2⟩

/-- C8: with a monotone clock, the timestamps of the records written in one
session are non-decreasing in write order, and every record of the session
encodes to the same fixed size — for the polling engine (16-byte records)
and for the interrupt-driven engine (12-byte records), whose locked callback
body takes its timestamp immediately before its write, so write order
follows clock-call order. -/
theorem C8_monotone_timestamps (clock : Nat → Int)
    (samples : Nat → Int × Int × Int) (D : Int) (fuel : Nat) (f32 : Int → Nat)
    (raws : Nat → Int) (k : Nat)
    (hmono : ∀ a b : Nat, a ≤ b → clock a ≤ clock b)
    (hrange : ∀ n, -2147483648 ≤ (samples n).1 ∧ (samples n).1 < 2147483648 ∧
      -2147483648 ≤ (samples n).2.1 ∧ (samples n).2.1 < 2147483648 ∧
      -2147483648 ≤ (samples n).2.2 ∧ (samples n).2.2 < 2147483648)
    (hraws : ∀ n, -2147483648 ≤ raws n ∧ raws n < 2147483648) :
    ((captureRun clock samples D fuel).1.map (fun r => r.t)).Pairwise (· ≤ ·) ∧
    (∀ r ∈ (captureRun clock samples D fuel).1,
      (pack_fiii (f32 r.t) r.s1 r.s2 r.s3).map List.length = some 16) ∧
    ((Logger.run_session clock raws k Logger.init_logger).logWrites.map
      (fun w => w.1)).Pairwise (· ≤ ·) ∧
    ∀ w ∈ (Logger.run_session clock raws k Logger.init_logger).logWrites,
      (pack_fii (f32 w.1) (w.2.1 : Int) w.2.2).map List.length = some 12 := by
  have hspec := Logger.run_callbacks_spec
    ((List.range k).map (fun j => (clock (j + 1) - clock 0, raws j)))
    Logger.init_logger rfl (by decide)
  have hlw : (Logger.run_session clock raws k Logger.init_logger).logWrites =
      Logger.expected_writes 0
        ((List.range k).map (fun j => (clock (j + 1) - clock 0, raws j))) := by
    have h3 := hspec.2.2
    simpa [Logger.run_session, Logger.init_logger] using h3
  refine ⟨?_, ?_, ?_, ?_⟩
  · rw [captureRun_records_eq clock samples D fuel]
    exact expected_records_pairwise clock samples hmono _ 0
  · intro r hr
    rw [captureRun_records_eq clock samples D fuel] at hr
    obtain ⟨i', _, heq⟩ := expected_records_mem clock samples _ 0 r hr
    subst heq
    obtain ⟨h1, h2, h3, h4, h5, h6⟩ := hrange i'
    exact pack_fiii_length_eq _ _ _ _ h1 h2 h3 h4 h5 h6
  · rw [hlw, Logger.expected_writes_ts, List.map_map, List.pairwise_map]
    refine List.Pairwise.imp ?_ (List.pairwise_lt_range k)
    intro a b hab
    show clock (a + 1) - clock 0 ≤ clock (b + 1) - clock 0
    exact sub_le_sub_right (hmono (a + 1) (b + 1) (by omega)) (clock 0)
  · intro w hw
    rw [hlw] at hw
    obtain ⟨h3, e, he, ht, hraw⟩ :=
      Logger.expected_writes_mem_shape _ 0 w hw
    obtain ⟨j, hj, hej⟩ := List.mem_map.mp he
    have hr2 : w.2.2 = raws j := by rw [hraw, ← hej]
    refine pack_fii_length_eq _ _ _ (by omega) (by omega) ?_ ?_
    · rw [hr2]
      exact (hraws j).1
    · rw [hr2]
      exact (hraws j).2

/-- Witness for C8 with the identity clock, constant samples and a four-
firing interrupt session. -/
theorem C8_monotone_timestamps_witness :
    ((captureRun (fun n => (n : Int))
        (fun _ => ((100 : Int), (-200 : Int), (300 : Int))) 4 10).1.map
      (fun r => r.t)).Pairwise (· ≤ ·) ∧
    ((Logger.run_session (fun n => (n : Int)) (fun _ => (-7 : Int)) 4
        Logger.init_logger).logWrites.map (fun w => w.1)).Pairwise (· ≤ ·) := by
  have h := C8_monotone_timestamps (fun n => (n : Int))
    (fun _ => ((100 : Int), (-200 : Int), (300 : Int))) 4 10 (fun t => t.toNat)
    (fun _ => (-7 : Int)) 4
    (fun a b h => by
      show ((a : Nat) : Int) ≤ ((b : Nat) : Int)
      exact_mod_cast h)
    (by intro n; refine ⟨?_, ?_, ?_, ?_, ?_, ?_⟩ <;> norm_num)
    (by intro n; refine ⟨?_, ?_⟩ <;> norm_num)
  exact ⟨h.1, h.2.2.1⟩

end Capture

/-! ### USB export at session end (Capture.py lines 200–210,
ads1256_logger.py lines 192–202).  Storage discovery is an external service;
its result is passed in, `none` covering both "no removable device found"
and a caught detection error (both return `(None, None)` in the source). -/

/-- File-system view after capture: the closed log and metadata in their
original location, the files on the removable target, whether it was
ejected, and the bytes of the closed capture log. -/
structure ExportState where
  localFiles : List String
  usbFiles : List String
  ejected : Bool
  logBytes : List Nat
deriving DecidableEq

/-- Embedding of the export branch of Capture.py: when a mount was found,
copy the log and metadata files to it and eject; otherwise only print a
message and leave everything as it is. -/
def usb_export (found : Option (String × String)) (binFile metaFile : String)
    (s : ExportState) : ExportState :=
  match found with
  | none => s
  | some _ =>
    { s with usbFiles := s.usbFiles ++ [binFile, metaFile], ejected := true }

/-- Embedding of the export branch of ads1256_logger.py: same shape, only
the log file is copied. -/
def usb_export_logger (found : Option (String × String)) (binFile : String)
    (s : ExportState) : ExportState :=
  match found with
  | none => s
  | some _ => { s with usbFiles := s.usbFiles ++ [binFile], ejected := true }

/-- C9: when no removable storage target is found, the export step of either
program is a complete no-op — the closed log and its metadata stay in their
original location untouched and nothing is ejected — and in every case
(target found or not) export never modifies the local files or the bytes of
the closed capture log. -/
theorem C9_export_noop (binFile metaFile : String) (s : ExportState)
    (found : Option (String × String)) :
    usb_export none binFile metaFile s = s ∧
    usb_export_logger none binFile s = s ∧
    (usb_export found binFile metaFile s).localFiles = s.localFiles ∧
    (usb_export found binFile metaFile s).logBytes = s.logBytes ∧
    (usb_export_logger found binFile s).localFiles = s.localFiles ∧
    (usb_export_logger found binFile s).logBytes = s.logBytes := by
  refine ⟨rfl, rfl, ?_, ?_, ?_, ?_⟩ <;>
    cases found <;> rfl

end PowerPole
